import Mathlib

/-!
# A shallow embedding of go-core's `Promise` and `PipeListener`

This file embeds the two concurrency primitives of the repository —
the single-assignment promise of `promise.go` and the in-process
rendezvous connection broker (`PipeListener`) of `net.go` — as
executable Lean definitions, and proves the behavioural properties
stated about them.

Go channels of capacity one are modelled as a buffer list (length at
most one) plus a closed flag; the unbuffered `conns` channel of the
broker is modelled by its rendezvous semantics directly (a pairing
event that completes one pending dial and one pending accept
simultaneously).  Blocking operations return `Option`: `none` means
the operation cannot complete in the current state.  Go `select` among
several ready cases is nondeterministic, so the broker is modelled as
a labelled transition system whose events pick a ready case.
-/

namespace GoCore

/-- The error values that appear in `promise.go` and `net.go`:
`ErrPromiseFulfilled`, `syscall.EINVAL`, `syscall.ECONNREFUSED`, and
`context.Canceled` (what `ctx.Err()` returns for a cancelled context). -/
inductive GoError where
  | errPromiseFulfilled
  | EINVAL
  | ECONNREFUSED
  | contextCanceled
  deriving DecidableEq, Repr

/-- A Go `error` value: `none` is the nil error. -/
abbrev Err := Option GoError

/-- A Go channel of capacity one, as created by `make(chan T, 1)`:
a buffer of at most one element and a closed flag. -/
structure Chan1 (α : Type) where
  buf : List α
  closedFlag : Bool
  deriving DecidableEq, Repr

namespace Chan1

/-- Go `make(chan α, 1)`: empty buffer, open. -/
def new : Chan1 α := ⟨[], false⟩

/-- A non-blocking step of `ch <- v` on a capacity-one channel: succeeds
exactly when the buffer has room and the channel is open (a send on a
closed channel panics; a send on a full channel blocks — both are
`none`). -/
def send (c : Chan1 α) (v : α) : Option (Chan1 α) :=
  if c.closedFlag then none
  else if c.buf.length < 1 then some ⟨c.buf ++ [v], false⟩
  else none

/-- Go `close(ch)`. -/
def close (c : Chan1 α) : Chan1 α := ⟨c.buf, true⟩

/-- A step of `v, ok := <-ch`: a buffered element is taken with
`ok = true`; a closed drained channel yields the zero value with
`ok = false`; an open empty channel blocks (`none`). -/
def recv [Inhabited α] (c : Chan1 α) : Option (α × Bool × Chan1 α) :=
  match c.buf with
  | v :: rest => some (v, true, ⟨rest, c.closedFlag⟩)
  | [] => if c.closedFlag then some (default, false, c) else none

end Chan1

/-- The state of a `Promise[T]` from `promise.go`: the capacity-one
`value` and `error` channels and the `closed` int32 flag driven by
`atomic.CompareAndSwapInt32`. -/
structure Promise (T : Type) where
  value : Chan1 T
  error : Chan1 Err
  closed : Nat
  deriving DecidableEq, Repr

/-- Go `NewPromise[T]()`. -/
def NewPromise {T : Type} : Promise T :=
  { value := Chan1.new, error := Chan1.new, closed := 0 }

namespace Promise

variable {T : Type}

/-- Go `(*Promise[T]).FailWith(err)`.  The CAS on `closed` is the guard: a
loser returns `ErrPromiseFulfilled` and touches nothing.  The winner
sends on the `error` channel and closes it.  The outer `Option` is
`none` when the winner's send would block (shown unreachable below). -/
def FailWith (p : Promise T) (e : Err) : Option (Err × Promise T) :=
  if p.closed ≠ 0 then some (some .errPromiseFulfilled, p)
  else
    (p.error.send e).map fun ch =>
      (none, { p with closed := 1, error := ch.close })

/-- Go `(*Promise[T]).SucceedWith(value)`, symmetric to `FailWith` on the
`value` channel. -/
def SucceedWith (p : Promise T) (v : T) : Option (Err × Promise T) :=
  if p.closed ≠ 0 then some (some .errPromiseFulfilled, p)
  else
    (p.value.send v).map fun ch =>
      (none, { p with closed := 1, value := ch.close })

/-- A step of `v, ok := <-p.Value()` (`Value()` returns the `value`
channel itself). -/
def recvValue [Inhabited T] (p : Promise T) : Option (T × Bool × Promise T) :=
  p.value.recv.map fun r => (r.1, r.2.1, { p with value := r.2.2 })

/-- A step of `e, ok := <-p.Err()` (`Err()` returns the `error` channel
itself). -/
def recvError (p : Promise T) : Option (Err × Bool × Promise T) :=
  p.error.recv.map fun r => (r.1, r.2.1, { p with error := r.2.2 })

end Promise

/-- An event against a promise: a fulfillment attempt by some producer,
or one receive step by some consumer. -/
inductive PEvent (T : Type) where
  | succeedWith (v : T)
  | failWith (e : Err)
  | recvValue
  | recvError
  deriving DecidableEq, Repr

/-- One event applied to a promise state; `none` when the event cannot
complete there (a blocked receive, or a fulfillment whose channel send
would block). -/
def pstep [Inhabited T] (p : Promise T) : PEvent T → Option (Promise T)
  | .succeedWith v => (p.SucceedWith v).map (·.2)
  | .failWith e => (p.FailWith e).map (·.2)
  | .recvValue => p.recvValue.map (·.2.2)
  | .recvError => p.recvError.map (·.2.2)

/-- Run a sequence of events, skipping the ones that block (a blocked
call leaves the state unchanged).  States of the form
`prun NewPromise evs` are exactly the reachable promise states. -/
def prun [Inhabited T] (p : Promise T) (evs : List (PEvent T)) : Promise T :=
  evs.foldl (fun q e => (pstep q e).getD q) p

/-- The correctness invariant of the promise: while the CAS flag is
still zero no one has touched either channel, and the flag only ever
holds zero or one. -/
def PInv (p : Promise T) : Prop :=
  (p.closed = 0 →
    p.value.buf = [] ∧ p.value.closedFlag = false ∧
    p.error.buf = [] ∧ p.error.closedFlag = false) ∧
  (p.closed = 0 ∨ p.closed = 1)

/-- A fulfillment call: one invocation of `SucceedWith` or `FailWith`. -/
inductive FulfillCall (T : Type) where
  | succeedWith (v : T)
  | failWith (e : Err)
  deriving DecidableEq, Repr

/-- Dispatch a fulfillment call to the corresponding method. -/
def Promise.fulfill {T : Type} (p : Promise T) : FulfillCall T → Option (Err × Promise T)
  | .succeedWith v => p.SucceedWith v
  | .failWith e => p.FailWith e

/-- Run a sequence of fulfillment calls, recording each call's returned
`error` value (`none` in the list marks a call that blocked — shown
never to happen from the initial state). -/
def runFulfills {T : Type} (p : Promise T) :
    List (FulfillCall T) → List (Option Err) × Promise T
  | [] => ([], p)
  | c :: cs =>
    match p.fulfill c with
    | none => ((runFulfills p cs).1.cons none, (runFulfills p cs).2)
    | some (e, q) => ((runFulfills q cs).1.cons (some e), (runFulfills q cs).2)

/-- After a successful `SucceedWith`, the error channel is still empty
and open, and the promise is settled. -/
def ErrUntouched {T : Type} (p : Promise T) : Prop :=
  p.error.buf = [] ∧ p.error.closedFlag = false ∧ p.closed ≠ 0

/-- After a successful `FailWith`, the value channel is still empty and
open, and the promise is settled. -/
def ValUntouched {T : Type} (p : Promise T) : Prop :=
  p.value.buf = [] ∧ p.value.closedFlag = false ∧ p.closed ≠ 0

/-- The value channel once its single element has been received: empty,
closed, promise settled. -/
def ValDrained {T : Type} (p : Promise T) : Prop :=
  p.value.buf = [] ∧ p.value.closedFlag = true ∧ p.closed ≠ 0

/-- The error channel once its single element has been received. -/
def ErrDrained {T : Type} (p : Promise T) : Prop :=
  p.error.buf = [] ∧ p.error.closedFlag = true ∧ p.closed ≠ 0

/-- Which end of a `net.Pipe()` duplex connection: `DialContext` keeps
the client end `c` and offers the server end `s` on the `conns`
channel. -/
inductive Side where
  | client
  | server
  deriving DecidableEq, Repr

/-- A connection endpoint handed out by the broker: the pipe it belongs
to (pipes are numbered by the `DialContext` call that created them) and
which end of it. -/
structure Endpoint where
  pipe : Nat
  side : Side
  deriving DecidableEq, Repr

/-- The result of a completed `Accept` or `Dial`/`DialContext` call. -/
inductive CallRes where
  | ok (ep : Endpoint)
  | err (e : GoError)
  deriving DecidableEq, Repr

/-- The state of a `PipeListener` (net.go) together with the calls
currently blocked in its `select` statements and the results of the
completed calls.  `closed` is the int32 CAS flag of `Close`;
`doneClosed` records whether `close(p.done)` has run.  A pending dial
has already executed `net.Pipe()` (hence `createdPipes`); a pending
call sits in its `select` until one of its ready cases is chosen. -/
structure PL where
  closed : Nat
  doneClosed : Bool
  pendingDials : List Nat
  pendingAccepts : List Nat
  cancelledCtxs : List Nat
  pairs : List (Nat × Nat)
  dialResults : List (Nat × CallRes)
  acceptResults : List (Nat × CallRes)
  createdPipes : List Nat
  nextId : Nat
  deriving DecidableEq, Repr

/-- Go `ListenPipe()`: open listener, fresh channels, nothing pending. -/
def ListenPipe : PL :=
  { closed := 0, doneClosed := false, pendingDials := [], pendingAccepts := [],
    cancelledCtxs := [], pairs := [], dialResults := [], acceptResults := [],
    createdPipes := [], nextId := 0 }

/-- Go `close(p.done)`: `none` models the panic of closing a closed
channel (shown unreachable). -/
def PL.closeDone (s : PL) : Option PL :=
  if s.doneClosed then none else some { s with doneClosed := true }

/-- Go `(*PipeListener).Close()` of the current revision: the CAS on
`closed` guards the `close(p.done)`; a loser returns `syscall.EINVAL`
and touches nothing. -/
def PL.Close (s : PL) : Option (Err × PL) :=
  if s.closed ≠ 0 then some (some .EINVAL, s)
  else s.closeDone.map fun s1 => (none, { s1 with closed := 1 })

/-- An event of the broker transition system.  `dialStart c` is the
entry of a `DialContext` call (its `net.Pipe()` has run; `c` says
whether its context is already cancelled); `acceptStart` is the entry
of an `Accept` call; `pair`, `dialRefused`, `dialCancelled` and
`acceptClosed` are the `select` cases the Go runtime may choose for a
blocked call; `cancelCtx` fires a pending dial's context; `closeCall`
is one `Close()` invocation. -/
inductive LEvent where
  | dialStart (c : Bool)
  | acceptStart
  | pair (d a : Nat)
  | dialRefused (d : Nat)
  | dialCancelled (d : Nat)
  | acceptClosed (a : Nat)
  | cancelCtx (d : Nat)
  | closeCall
  deriving DecidableEq, Repr

/-- One broker event; `none` when the event is not enabled in `s` (its
`select` case is not ready there). -/
def lstep (s : PL) : LEvent → Option PL
  | .dialStart c =>
    some { s with pendingDials := s.pendingDials ++ [s.nextId],
                  cancelledCtxs :=
                    if c then s.cancelledCtxs ++ [s.nextId] else s.cancelledCtxs,
                  createdPipes := s.createdPipes ++ [s.nextId],
                  nextId := s.nextId + 1 }
  | .acceptStart =>
    some { s with pendingAccepts := s.pendingAccepts ++ [s.nextId],
                  nextId := s.nextId + 1 }
  | .pair d a =>
    if d ∈ s.pendingDials ∧ a ∈ s.pendingAccepts then
      some { s with pendingDials := s.pendingDials.erase d,
                    pendingAccepts := s.pendingAccepts.erase a,
                    pairs := s.pairs ++ [(d, a)],
                    dialResults := s.dialResults ++ [(d, .ok ⟨d, .client⟩)],
                    acceptResults := s.acceptResults ++ [(a, .ok ⟨d, .server⟩)] }
    else none
  | .dialRefused d =>
    if d ∈ s.pendingDials ∧ s.doneClosed = true then
      some { s with pendingDials := s.pendingDials.erase d,
                    dialResults := s.dialResults ++ [(d, .err .ECONNREFUSED)] }
    else none
  | .dialCancelled d =>
    if d ∈ s.pendingDials ∧ d ∈ s.cancelledCtxs then
      some { s with pendingDials := s.pendingDials.erase d,
                    dialResults := s.dialResults ++ [(d, .err .contextCanceled)] }
    else none
  | .acceptClosed a =>
    if a ∈ s.pendingAccepts ∧ s.doneClosed = true then
      some { s with pendingAccepts := s.pendingAccepts.erase a,
                    acceptResults := s.acceptResults ++ [(a, .err .EINVAL)] }
    else none
  | .cancelCtx d => some { s with cancelledCtxs := s.cancelledCtxs ++ [d] }
  | .closeCall => (s.Close).map (·.2)

/-- Run a sequence of broker events, skipping the ones not enabled.
States of the form `lrun ListenPipe evs` are exactly the reachable
broker states. -/
def lrun (s : PL) (evs : List LEvent) : PL :=
  evs.foldl (fun q e => (lstep q e).getD q) s

/-- The correctness invariant of the broker: the CAS flag and the done
channel move together; pending call identifiers are unique, fresh with
respect to completed calls and pairings, and below the id counter; each
dial is paired at most once and each accept is paired at most once; and
a dial that returned the cancellation error was never paired. -/
structure LInv (s : PL) : Prop where
  flagZeroOne : s.closed = 0 ∨ s.closed = 1
  flagDone : s.closed = 0 ↔ s.doneClosed = false
  dialsNodup : s.pendingDials.Nodup
  acceptsNodup : s.pendingAccepts.Nodup
  pendingDialFresh : ∀ d ∈ s.pendingDials, d ∉ s.dialResults.map Prod.fst
  pendingDialNotPaired : ∀ d ∈ s.pendingDials, d ∉ s.pairs.map Prod.fst
  pendingAcceptNotPaired : ∀ a ∈ s.pendingAccepts, a ∉ s.pairs.map Prod.snd
  pairsFstNodup : (s.pairs.map Prod.fst).Nodup
  pairsSndNodup : (s.pairs.map Prod.snd).Nodup
  dialBound : ∀ d ∈ s.pendingDials, d < s.nextId
  acceptBound : ∀ a ∈ s.pendingAccepts, a < s.nextId
  dialResBound : ∀ i ∈ s.dialResults.map Prod.fst, i < s.nextId
  pairBound : ∀ x ∈ s.pairs, x.1 < s.nextId ∧ x.2 < s.nextId
  cancelNoLeak : ∀ d, (d, CallRes.err .contextCanceled) ∈ s.dialResults →
    d ∉ s.pairs.map Prod.fst

/-- The `Close` of the previous revision of `PipeListener`, guarded by
a `sync.Once` instead of a CAS flag: `closeOnce.Do(func() { close(p.done) })`
followed by `return nil`.  `none` models the panic of a double channel
close (shown unreachable: the Once body runs at most once). -/
structure PipeListenerOnce where
  onceUsed : Bool
  doneClosed : Bool
  deriving DecidableEq, Repr

def PipeListenerOnce.CloseOnce (s : PipeListenerOnce) : Option (Err × PipeListenerOnce) :=
  if s.onceUsed then some (none, s)
  else if s.doneClosed then none
  else some (none, { onceUsed := true, doneClosed := true })

/-- The two directed byte streams of one `net.Pipe()` in-memory duplex
connection: bytes written on the client end are read on the server end
and vice versa (net.Pipe is Go standard library; modelled from its
documented synchronous in-memory full-duplex semantics). -/
structure Pipe where
  clientToServer : List Nat
  serverToClient : List Nat
  deriving DecidableEq, Repr

def Pipe.new : Pipe := ⟨[], []⟩

/-- Write a byte sequence on one end of the pipe. -/
def Pipe.write (p : Pipe) : Side → List Nat → Pipe
  | .client, bs => { p with clientToServer := p.clientToServer ++ bs }
  | .server, bs => { p with serverToClient := p.serverToClient ++ bs }

/-- Read every byte available at one end of the pipe. -/
def Pipe.readAll (p : Pipe) : Side → List Nat × Pipe
  | .client => (p.serverToClient, { p with serverToClient := [] })
  | .server => (p.clientToServer, { p with clientToServer := [] })

def c4s : PL := lrun ListenPipe [.acceptStart, .dialStart false, .closeCall]

def c4t : PL := lrun ListenPipe [.acceptStart, .closeCall]

def c4t' : PL := (lstep c4t (.acceptClosed 0)).getD ListenPipe

def c4u : PL := lrun ListenPipe [.dialStart false, .closeCall]

def c4u' : PL := (lstep c4u (.dialRefused 0)).getD ListenPipe

def c5s1 : PL := (lstep ListenPipe (.dialStart true)).getD ListenPipe

def c5s' : PL := (lstep ListenPipe .acceptStart).getD ListenPipe

theorem pinv_new : PInv (NewPromise (T := T)) := by
  constructor
  · intro _; exact ⟨rfl, rfl, rfl, rfl⟩
  · exact Or.inl rfl

theorem pinv_step [Inhabited T] {p q : Promise T} {e : PEvent T}
    (hp : PInv p) (hq : pstep p e = some q) : PInv q := by
  obtain ⟨hpend, hflag⟩ := hp
  cases e with
  | succeedWith v =>
    simp only [pstep, Promise.SucceedWith] at hq
    by_cases h : p.closed ≠ 0
    · simp [h] at hq
      exact hq ▸ ⟨hpend, hflag⟩
    · push_neg at h
      simp [h, Chan1.send] at hq
      obtain ⟨⟨hbuf, hopen, _, _⟩ , _⟩ := And.intro (hpend h) hflag
      simp [hopen, hbuf] at hq
      refine hq ▸ ⟨?_, Or.inr rfl⟩
      intro hcontr; simp at hcontr
  | failWith e' =>
    simp only [pstep, Promise.FailWith] at hq
    by_cases h : p.closed ≠ 0
    · simp [h] at hq
      exact hq ▸ ⟨hpend, hflag⟩
    · push_neg at h
      simp [h, Chan1.send] at hq
      obtain ⟨_, _, hbuf, hopen⟩ := hpend h
      simp [hopen, hbuf] at hq
      refine hq ▸ ⟨?_, Or.inr rfl⟩
      intro hcontr; simp at hcontr
  | recvValue =>
    simp only [pstep, Promise.recvValue, Chan1.recv] at hq
    by_cases h : p.closed = 0
    · obtain ⟨hbuf, hopen, _, _⟩ := hpend h
      simp [hbuf, hopen] at hq
    · rcases hbuf : p.value.buf with _ | ⟨v, rest⟩
      · simp [hbuf] at hq
        by_cases hcl : p.value.closedFlag
        · simp [hcl] at hq
          refine hq ▸ ⟨fun hc => absurd hc h, hflag⟩
        · simp [hcl] at hq
      · simp [hbuf] at hq
        refine hq ▸ ⟨fun hc => absurd hc h, hflag⟩
  | recvError =>
    simp only [pstep, Promise.recvError, Chan1.recv] at hq
    by_cases h : p.closed = 0
    · obtain ⟨_, _, hbuf, hopen⟩ := hpend h
      simp [hbuf, hopen] at hq
    · rcases hbuf : p.error.buf with _ | ⟨v, rest⟩
      · simp [hbuf] at hq
        by_cases hcl : p.error.closedFlag
        · simp [hcl] at hq
          refine hq ▸ ⟨fun hc => absurd hc h, hflag⟩
        · simp [hcl] at hq
      · simp [hbuf] at hq
        refine hq ▸ ⟨fun hc => absurd hc h, hflag⟩

theorem pinv_run [Inhabited T] {p : Promise T} (hp : PInv p)
    (evs : List (PEvent T)) : PInv (prun p evs) := by
  induction evs generalizing p with
  | nil => exact hp
  | cons e evs ih =>
    rcases hq : pstep p e with _ | q
    · simpa [prun, hq] using ih hp
    · simpa [prun, hq] using ih (pinv_step hp hq)

theorem pinv_reachable [Inhabited T] (evs : List (PEvent T)) :
    PInv (prun NewPromise evs) :=
  pinv_run pinv_new evs

theorem fulfill_settled {T : Type} {p : Promise T} (h : p.closed ≠ 0)
    (c : FulfillCall T) : p.fulfill c = some (some .errPromiseFulfilled, p) := by
  cases c with
  | succeedWith v => simp [Promise.fulfill, Promise.SucceedWith, h]
  | failWith e => simp [Promise.fulfill, Promise.FailWith, h]

theorem runFulfills_settled {T : Type} {p : Promise T} (h : p.closed ≠ 0)
    (cs : List (FulfillCall T)) :
    runFulfills p cs = (cs.map fun _ => some (some .errPromiseFulfilled), p) := by
  induction cs with
  | nil => rfl
  | cons c cs ih => simp [runFulfills, fulfill_settled h, ih]

/-- The winning `SucceedWith`: from a state satisfying the invariant
with the CAS flag still zero, the call returns nil and leaves the value
channel holding `v`, closed. -/
theorem succeedWith_pending {T : Type} {p : Promise T} (hinv : PInv p)
    (h : p.closed = 0) (v : T) :
    p.SucceedWith v = some (none, { p with closed := 1, value := ⟨[v], true⟩ }) := by
  obtain ⟨hbuf, hopen, _, _⟩ := hinv.1 h
  simp [Promise.SucceedWith, h, Chan1.send, hopen, hbuf, Chan1.close]

/-- The winning `FailWith`, symmetric to `succeedWith_pending`. -/
theorem failWith_pending {T : Type} {p : Promise T} (hinv : PInv p)
    (h : p.closed = 0) (e : Err) :
    p.FailWith e = some (none, { p with closed := 1, error := ⟨[e], true⟩ }) := by
  obtain ⟨_, _, hbuf, hopen⟩ := hinv.1 h
  simp [Promise.FailWith, h, Chan1.send, hopen, hbuf, Chan1.close]

theorem prun_preserve {T : Type} [Inhabited T] {P : Promise T → Prop}
    (hstep : ∀ p e, P p → P ((pstep p e).getD p)) :
    ∀ (evs : List (PEvent T)) (p : Promise T), P p → P (prun p evs) := by
  intro evs
  induction evs with
  | nil => exact fun p hp => hp
  | cons e evs ih =>
    intro p hp
    simpa [prun] using ih _ (hstep p e hp)

theorem errUntouched_step {T : Type} [Inhabited T] (p : Promise T) (e : PEvent T)
    (h : ErrUntouched p) : ErrUntouched ((pstep p e).getD p) := by
  obtain ⟨hbuf, hopen, hcl⟩ := h
  cases e with
  | succeedWith v =>
    simp [pstep, Promise.SucceedWith, hcl]
    exact ⟨hbuf, hopen, hcl⟩
  | failWith e' =>
    simp [pstep, Promise.FailWith, hcl]
    exact ⟨hbuf, hopen, hcl⟩
  | recvValue =>
    rcases hr : p.value.recv with _ | r
    · simp [pstep, Promise.recvValue, hr]
      exact ⟨hbuf, hopen, hcl⟩
    · simp [pstep, Promise.recvValue, hr]
      exact ⟨hbuf, hopen, hcl⟩
  | recvError =>
    simp [pstep, Promise.recvError, Chan1.recv, hbuf, hopen]
    exact ⟨hbuf, hopen, hcl⟩

theorem valUntouched_step {T : Type} [Inhabited T] (p : Promise T) (e : PEvent T)
    (h : ValUntouched p) : ValUntouched ((pstep p e).getD p) := by
  obtain ⟨hbuf, hopen, hcl⟩ := h
  cases e with
  | succeedWith v =>
    simp [pstep, Promise.SucceedWith, hcl]
    exact ⟨hbuf, hopen, hcl⟩
  | failWith e' =>
    simp [pstep, Promise.FailWith, hcl]
    exact ⟨hbuf, hopen, hcl⟩
  | recvValue =>
    simp [pstep, Promise.recvValue, Chan1.recv, hbuf, hopen]
    exact ⟨hbuf, hopen, hcl⟩
  | recvError =>
    rcases hr : p.error.recv with _ | r
    · simp [pstep, Promise.recvError, hr]
      exact ⟨hbuf, hopen, hcl⟩
    · simp [pstep, Promise.recvError, hr]
      exact ⟨hbuf, hopen, hcl⟩

theorem valDrained_step {T : Type} [Inhabited T] (p : Promise T) (e : PEvent T)
    (h : ValDrained p) : ValDrained ((pstep p e).getD p) := by
  obtain ⟨hbuf, hdone, hcl⟩ := h
  cases e with
  | succeedWith v =>
    simp [pstep, Promise.SucceedWith, hcl]
    exact ⟨hbuf, hdone, hcl⟩
  | failWith e' =>
    simp [pstep, Promise.FailWith, hcl]
    exact ⟨hbuf, hdone, hcl⟩
  | recvValue =>
    simp [pstep, Promise.recvValue, Chan1.recv, hbuf, hdone]
    exact ⟨hbuf, hdone, hcl⟩
  | recvError =>
    rcases hr : p.error.recv with _ | r
    · simp [pstep, Promise.recvError, hr]
      exact ⟨hbuf, hdone, hcl⟩
    · simp [pstep, Promise.recvError, hr]
      exact ⟨hbuf, hdone, hcl⟩

theorem errDrained_step {T : Type} [Inhabited T] (p : Promise T) (e : PEvent T)
    (h : ErrDrained p) : ErrDrained ((pstep p e).getD p) := by
  obtain ⟨hbuf, hdone, hcl⟩ := h
  cases e with
  | succeedWith v =>
    simp [pstep, Promise.SucceedWith, hcl]
    exact ⟨hbuf, hdone, hcl⟩
  | failWith e' =>
    simp [pstep, Promise.FailWith, hcl]
    exact ⟨hbuf, hdone, hcl⟩
  | recvValue =>
    rcases hr : p.value.recv with _ | r
    · simp [pstep, Promise.recvValue, hr]
      exact ⟨hbuf, hdone, hcl⟩
    · simp [pstep, Promise.recvValue, hr]
      exact ⟨hbuf, hdone, hcl⟩
  | recvError =>
    simp [pstep, Promise.recvError, Chan1.recv, hbuf, hdone]
    exact ⟨hbuf, hdone, hcl⟩

/-- A receive from an empty, open channel blocks. -/
theorem recvError_untouched {T : Type} {p : Promise T} (h : ErrUntouched p) :
    p.recvError = none := by
  simp [Promise.recvError, Chan1.recv, h.1, h.2.1]

theorem recvValue_untouched {T : Type} [Inhabited T] {p : Promise T}
    (h : ValUntouched p) : p.recvValue = none := by
  simp [Promise.recvValue, Chan1.recv, h.1, h.2.1]

/-- A receive from a drained closed channel returns the zero value with
`ok = false` at once and changes nothing. -/
theorem recvValue_drained {T : Type} [Inhabited T] {p : Promise T}
    (h : ValDrained p) : p.recvValue = some (default, false, p) := by
  simp [Promise.recvValue, Chan1.recv, h.1, h.2.1]

theorem recvError_drained {T : Type} {p : Promise T}
    (h : ErrDrained p) : p.recvError = some (none, false, p) := by
  simp [Promise.recvError, Chan1.recv, h.1, h.2.1]
  rfl

/-- C1: for every Promise and every sequence of fulfillment calls (any
mix of `SucceedWith` and `FailWith`), exactly the first call returns
success (nil); every later fulfillment call returns
`ErrPromiseFulfilled` and performs no mutation, leaving the original
settlement untouched (the final state is the state produced by the
first call). -/
theorem promise_first_fulfillment_wins {T : Type} (c : FulfillCall T)
    (cs : List (FulfillCall T)) :
    ∃ q : Promise T, (NewPromise (T := T)).fulfill c = some (none, q) ∧
      q.closed = 1 ∧
      runFulfills NewPromise (c :: cs) =
        (some none :: (cs.map fun _ => some (some .errPromiseFulfilled)), q) := by
  cases c with
  | succeedWith v =>
    have hf : (NewPromise (T := T)).fulfill (.succeedWith v) =
        some (none, { NewPromise (T := T) with closed := 1, value := ⟨[v], true⟩ }) := by
      simpa [Promise.fulfill] using
        succeedWith_pending (p := NewPromise (T := T)) pinv_new rfl v
    refine ⟨_, hf, rfl, ?_⟩
    have hq : ({ NewPromise (T := T) with
        closed := 1, value := (⟨[v], true⟩ : Chan1 T) } : Promise T).closed ≠ 0 := by
      simp
    simp [runFulfills, hf, runFulfills_settled hq]
  | failWith e =>
    have hf : (NewPromise (T := T)).fulfill (.failWith e) =
        some (none, { NewPromise (T := T) with closed := 1, error := ⟨[e], true⟩ }) := by
      simpa [Promise.fulfill] using
        failWith_pending (p := NewPromise (T := T)) pinv_new rfl e
    refine ⟨_, hf, rfl, ?_⟩
    have hq : ({ NewPromise (T := T) with
        closed := 1, error := (⟨[e], true⟩ : Chan1 Err) } : Promise T).closed ≠ 0 := by
      simp
    simp [runFulfills, hf, runFulfills_settled hq]

/-- C9: from any reachable state in which the promise is still pending,
the fulfillment call that wins the CAS completes without blocking —
its single send goes into the still-empty capacity-one channel — and
returns nil, regardless of what readers have done so far. -/
theorem promise_winner_never_blocks {T : Type} [Inhabited T]
    (evs : List (PEvent T)) (v : T) (e : Err)
    (h : (prun NewPromise evs).closed = 0) :
    (prun NewPromise evs).SucceedWith v =
      some (none, { prun NewPromise evs with closed := 1, value := ⟨[v], true⟩ }) ∧
    (prun NewPromise evs).FailWith e =
      some (none, { prun NewPromise evs with closed := 1, error := ⟨[e], true⟩ }) :=
  ⟨succeedWith_pending (pinv_reachable evs) h v,
   failWith_pending (pinv_reachable evs) h e⟩

/-- Witness for `promise_winner_never_blocks`: a reader has already
attempted (and blocked on) a receive, and both fulfillment calls would
still complete immediately. -/
theorem promise_winner_never_blocks_witness :
    (prun (NewPromise (T := Nat)) [.recvValue]).closed = 0 ∧
    ((prun (NewPromise (T := Nat)) [.recvValue]).SucceedWith 3 =
      some (none, { prun (NewPromise (T := Nat)) [.recvValue] with
        closed := 1, value := ⟨[3], true⟩ }) ∧
    (prun (NewPromise (T := Nat)) [.recvValue]).FailWith none =
      some (none, { prun (NewPromise (T := Nat)) [.recvValue] with
        closed := 1, error := ⟨[none], true⟩ })) :=
  ⟨by decide, promise_winner_never_blocks [.recvValue] 3 none (by decide)⟩

/-- C3 (counterexample): after `SucceedWith 1` succeeds on a fresh
`Promise[Nat]`, the first receive from `Value()` yields `1`, but the
second receive yields the zero value `0` with `ok = false` — not `1` —
so it is not the case that every subsequent receive returns the
fulfilled value. -/
theorem promise_second_receive_loses_value :
    (NewPromise (T := Nat)).SucceedWith 1 =
      some (none, ⟨⟨[1], true⟩, ⟨[], false⟩, 1⟩) ∧
    (Promise.recvValue (⟨⟨[1], true⟩, ⟨[], false⟩, 1⟩ : Promise Nat)) =
      some (1, true, ⟨⟨[], true⟩, ⟨[], false⟩, 1⟩) ∧
    (Promise.recvValue (⟨⟨[], true⟩, ⟨[], false⟩, 1⟩ : Promise Nat)) =
      some (0, false, ⟨⟨[], true⟩, ⟨[], false⟩, 1⟩) ∧
    (0 : Nat) ≠ 1 := by
  refine ⟨rfl, rfl, rfl, by decide⟩

/-- C3 (amended): for every reachable pending promise and value `v`,
after `SucceedWith v` returns success the *first* receive from
`p.Value()` (whether it started before or after the fulfillment)
returns `v`. -/
theorem promise_first_receive_gets_value {T : Type} [Inhabited T]
    (evs : List (PEvent T)) (v : T)
    (h : (prun NewPromise evs).closed = 0) :
    ∃ q : Promise T, (prun NewPromise evs).SucceedWith v = some (none, q) ∧
      q.recvValue = some (v, true, { q with value := ⟨[], true⟩ }) := by
  refine ⟨_, succeedWith_pending (pinv_reachable evs) h v, ?_⟩
  simp [Promise.recvValue, Chan1.recv]

/-- Witness for `promise_first_receive_gets_value` at a fresh promise
and `v = 2`. -/
theorem promise_first_receive_gets_value_witness :
    (prun (NewPromise (T := Nat)) []).closed = 0 ∧
    ∃ q : Promise Nat, (prun (NewPromise (T := Nat)) []).SucceedWith 2 = some (none, q) ∧
      q.recvValue = some (2, true, { q with value := ⟨[], true⟩ }) :=
  ⟨by decide, promise_first_receive_gets_value [] 2 (by decide)⟩

/-- C7: from any reachable pending promise, after `SucceedWith` returns
success, a receive from `Err()` never completes — in every state
reachable from the settlement by further events, the error channel is
still empty and open, so the receive blocks; and symmetrically, after
`FailWith` succeeds, a receive from `Value()` never completes. -/
theorem promise_opposite_observation_never_completes {T : Type} [Inhabited T]
    (evs : List (PEvent T)) (v : T) (e : Err) (evs2 evs3 : List (PEvent T))
    (h : (prun NewPromise evs).closed = 0) :
    (∃ q : Promise T, (prun NewPromise evs).SucceedWith v = some (none, q) ∧
      (prun q evs2).recvError = none) ∧
    (∃ q : Promise T, (prun NewPromise evs).FailWith e = some (none, q) ∧
      (prun q evs3).recvValue = none) := by
  have hinv := pinv_reachable (T := T) evs
  constructor
  · refine ⟨_, succeedWith_pending hinv h v, ?_⟩
    apply recvError_untouched
    apply prun_preserve errUntouched_step
    obtain ⟨_, _, hbuf, hopen⟩ := hinv.1 h
    exact ⟨hbuf, hopen, by simp⟩
  · refine ⟨_, failWith_pending hinv h e, ?_⟩
    apply recvValue_untouched
    apply prun_preserve valUntouched_step
    obtain ⟨hbuf, hopen, _, _⟩ := hinv.1 h
    exact ⟨hbuf, hopen, by simp⟩

/-- Witness for `promise_opposite_observation_never_completes`: a fresh
promise, `v = 5`, a nil error, and later a losing fulfillment attempt
and a receive on each side. -/
theorem promise_opposite_observation_never_completes_witness :
    (prun (NewPromise (T := Nat)) []).closed = 0 ∧
    ((∃ q : Promise Nat,
      (prun (NewPromise (T := Nat)) []).SucceedWith 5 = some (none, q) ∧
      (prun q [.failWith none, .recvError]).recvError = none) ∧
    (∃ q : Promise Nat,
      (prun (NewPromise (T := Nat)) []).FailWith none = some (none, q) ∧
      (prun q [.succeedWith 9, .recvValue]).recvValue = none)) :=
  ⟨by decide, promise_opposite_observation_never_completes []
    5 none [.failWith none, .recvError] [.succeedWith 9, .recvValue] (by decide)⟩

/-- C10: from any reachable pending promise, after `SucceedWith v`
succeeds only the first receive from `Value()` yields `v`; the channel
is then closed and drained, so every later receive (after any further
events) returns immediately with the zero value of `T` and `ok = false`
rather than blocking; symmetrically, later receives from `Err()` after
a consumed `FailWith` yield the nil error. -/
theorem promise_later_receives_zero {T : Type} [Inhabited T]
    (evs : List (PEvent T)) (v : T) (e : Err) (evs2 evs3 : List (PEvent T))
    (h : (prun NewPromise evs).closed = 0) :
    (∃ q q' : Promise T,
      (prun NewPromise evs).SucceedWith v = some (none, q) ∧
      q.recvValue = some (v, true, q') ∧
      (prun q' evs2).recvValue = some (default, false, prun q' evs2)) ∧
    (∃ q q' : Promise T,
      (prun NewPromise evs).FailWith e = some (none, q) ∧
      q.recvError = some (e, true, q') ∧
      (prun q' evs3).recvError = some (none, false, prun q' evs3)) := by
  have hinv := pinv_reachable (T := T) evs
  constructor
  · refine ⟨{ prun NewPromise evs with closed := 1, value := ⟨[v], true⟩ },
      { prun NewPromise evs with closed := 1, value := ⟨[], true⟩ },
      succeedWith_pending hinv h v, ?_, ?_⟩
    · simp [Promise.recvValue, Chan1.recv]
    · exact recvValue_drained
        (prun_preserve valDrained_step evs2 _ ⟨rfl, rfl, by simp⟩)
  · refine ⟨{ prun NewPromise evs with closed := 1, error := ⟨[e], true⟩ },
      { prun NewPromise evs with closed := 1, error := ⟨[], true⟩ },
      failWith_pending hinv h e, ?_, ?_⟩
    · simp [Promise.recvError, Chan1.recv]
    · exact recvError_drained
        (prun_preserve errDrained_step evs3 _ ⟨rfl, rfl, by simp⟩)

/-- Witness for `promise_later_receives_zero`: a fresh promise, `v = 7`,
a concrete error, and one further receive on each side. -/
theorem promise_later_receives_zero_witness :
    (prun (NewPromise (T := Nat)) []).closed = 0 ∧
    ((∃ q q' : Promise Nat,
      (prun (NewPromise (T := Nat)) []).SucceedWith 7 = some (none, q) ∧
      q.recvValue = some (7, true, q') ∧
      (prun q' [.recvValue]).recvValue = some (default, false, prun q' [.recvValue])) ∧
    (∃ q q' : Promise Nat,
      (prun (NewPromise (T := Nat)) []).FailWith (some .contextCanceled) = some (none, q) ∧
      q.recvError = some (some .contextCanceled, true, q') ∧
      (prun q' [.recvError]).recvError = some (none, false, prun q' [.recvError]))) :=
  ⟨by decide, promise_later_receives_zero [] 7 (some .contextCanceled)
    [.recvValue] [.recvError] (by decide)⟩

theorem mem_app1 {α : Type} {x a : α} {l : List α} : x ∈ l ++ [a] ↔ x ∈ l ∨ x = a := by
  simp

theorem nodup_app1 {α : Type} {l : List α} {a : α} (h : l.Nodup) (ha : a ∉ l) :
    (l ++ [a]).Nodup := by
  simp [List.nodup_append, h, ha]

theorem linv_init : LInv ListenPipe := by
  refine ⟨Or.inl rfl, by simp [ListenPipe], ?_, ?_, ?_, ?_, ?_, ?_, ?_, ?_, ?_, ?_, ?_, ?_⟩ <;>
    simp [ListenPipe]

theorem not_mem_fst_of_bound {β : Type} {l : List (Nat × β)} {n : Nat}
    (h : ∀ i ∈ l.map Prod.fst, i < n) : n ∉ l.map Prod.fst :=
  fun hm => absurd (h n hm) (lt_irrefl n)

theorem linv_step {s s' : PL} {e : LEvent} (hs : LInv s) (h : lstep s e = some s') :
    LInv s' := by
  have hpairF : s.nextId ∉ s.pairs.map Prod.fst := by
    intro hm
    obtain ⟨x, hx, he⟩ := List.mem_map.mp hm
    exact absurd (he ▸ (hs.pairBound x hx).1) (lt_irrefl _)
  have hpairS : s.nextId ∉ s.pairs.map Prod.snd := by
    intro hm
    obtain ⟨x, hx, he⟩ := List.mem_map.mp hm
    exact absurd (he ▸ (hs.pairBound x hx).2) (lt_irrefl _)
  cases e with
  | dialStart c =>
    simp only [lstep] at h
    injection h with h
    subst h
    refine ⟨hs.flagZeroOne, hs.flagDone, ?_, hs.acceptsNodup, ?_, ?_, ?_,
      hs.pairsFstNodup, hs.pairsSndNodup, ?_, ?_, ?_, ?_, ?_⟩
    · exact nodup_app1 hs.dialsNodup
        (fun hm => absurd (hs.dialBound _ hm) (lt_irrefl _))
    · intro d hd
      rcases mem_app1.mp hd with hd | rfl
      · exact hs.pendingDialFresh d hd
      · exact not_mem_fst_of_bound hs.dialResBound
    · intro d hd
      rcases mem_app1.mp hd with hd | rfl
      · exact hs.pendingDialNotPaired d hd
      · exact hpairF
    · exact fun a ha => hs.pendingAcceptNotPaired a ha
    · intro d hd
      rcases mem_app1.mp hd with hd | rfl
      · exact Nat.lt_succ_of_lt (hs.dialBound d hd)
      · exact Nat.lt_succ_self _
    · exact fun a ha => Nat.lt_succ_of_lt (hs.acceptBound a ha)
    · exact fun i hi => Nat.lt_succ_of_lt (hs.dialResBound i hi)
    · exact fun x hx => ⟨Nat.lt_succ_of_lt (hs.pairBound x hx).1,
        Nat.lt_succ_of_lt (hs.pairBound x hx).2⟩
    · exact hs.cancelNoLeak
  | acceptStart =>
    simp only [lstep] at h
    injection h with h
    subst h
    refine ⟨hs.flagZeroOne, hs.flagDone, hs.dialsNodup, ?_, hs.pendingDialFresh,
      hs.pendingDialNotPaired, ?_, hs.pairsFstNodup, hs.pairsSndNodup, ?_, ?_, ?_, ?_,
      hs.cancelNoLeak⟩
    · exact nodup_app1 hs.acceptsNodup
        (fun hm => absurd (hs.acceptBound _ hm) (lt_irrefl _))
    · intro a ha
      rcases mem_app1.mp ha with ha | rfl
      · exact hs.pendingAcceptNotPaired a ha
      · exact hpairS
    · exact fun d hd => Nat.lt_succ_of_lt (hs.dialBound d hd)
    · intro a ha
      rcases mem_app1.mp ha with ha | rfl
      · exact Nat.lt_succ_of_lt (hs.acceptBound a ha)
      · exact Nat.lt_succ_self _
    · exact fun i hi => Nat.lt_succ_of_lt (hs.dialResBound i hi)
    · exact fun x hx => ⟨Nat.lt_succ_of_lt (hs.pairBound x hx).1,
        Nat.lt_succ_of_lt (hs.pairBound x hx).2⟩
  | pair d a =>
    simp only [lstep] at h
    split_ifs at h with hc
    · obtain ⟨hd, ha⟩ := hc
      injection h with h
      subst h
      refine ⟨hs.flagZeroOne, hs.flagDone, hs.dialsNodup.erase d,
        hs.acceptsNodup.erase a, ?_, ?_, ?_, ?_, ?_, ?_, ?_, ?_, ?_, ?_⟩
      · intro d' hd'
        obtain ⟨hne, hd'⟩ := (List.Nodup.mem_erase_iff hs.dialsNodup).mp hd'
        simp only [List.map_append, List.map_cons, List.map_nil]
        rw [mem_app1]
        rintro (hm | hm)
        · exact hs.pendingDialFresh d' hd' hm
        · exact hne hm
      · intro d' hd'
        obtain ⟨hne, hd'⟩ := (List.Nodup.mem_erase_iff hs.dialsNodup).mp hd'
        simp only [List.map_append, List.map_cons, List.map_nil]
        rw [mem_app1]
        rintro (hm | hm)
        · exact hs.pendingDialNotPaired d' hd' hm
        · exact hne hm
      · intro a' ha'
        obtain ⟨hne, ha'⟩ := (List.Nodup.mem_erase_iff hs.acceptsNodup).mp ha'
        simp only [List.map_append, List.map_cons, List.map_nil]
        rw [mem_app1]
        rintro (hm | hm)
        · exact hs.pendingAcceptNotPaired a' ha' hm
        · exact hne hm
      · simpa using nodup_app1 hs.pairsFstNodup (hs.pendingDialNotPaired d hd)
      · simpa using nodup_app1 hs.pairsSndNodup (hs.pendingAcceptNotPaired a ha)
      · exact fun d' hd' =>
          hs.dialBound d' (List.mem_of_mem_erase hd')
      · exact fun a' ha' =>
          hs.acceptBound a' (List.mem_of_mem_erase ha')
      · intro i hi
        simp only [List.map_append, List.map_cons, List.map_nil] at hi
        rcases mem_app1.mp hi with hi | rfl
        · exact hs.dialResBound i hi
        · exact hs.dialBound _ hd
      · intro x hx
        rcases mem_app1.mp hx with hx | rfl
        · exact hs.pairBound x hx
        · exact ⟨hs.dialBound _ hd, hs.acceptBound _ ha⟩
      · intro d' hd'
        rcases mem_app1.mp hd' with hmem2 | heq
        · simp only [List.map_append, List.map_cons, List.map_nil]
          rw [mem_app1]
          rintro (hm | rfl)
          · exact hs.cancelNoLeak d' hmem2 hm
          · exact hs.pendingDialFresh _ hd
              (List.mem_map.mpr ⟨_, hmem2, rfl⟩)
        · simp at heq
  | dialRefused d =>
    simp only [lstep] at h
    split_ifs at h with hc
    · obtain ⟨hd, hdone⟩ := hc
      injection h with h
      subst h
      refine ⟨hs.flagZeroOne, hs.flagDone, hs.dialsNodup.erase d, hs.acceptsNodup,
        ?_, ?_, hs.pendingAcceptNotPaired, hs.pairsFstNodup, hs.pairsSndNodup,
        ?_, hs.acceptBound, ?_, hs.pairBound, ?_⟩
      · intro d' hd'
        obtain ⟨hne, hd'⟩ := (List.Nodup.mem_erase_iff hs.dialsNodup).mp hd'
        simp only [List.map_append, List.map_cons, List.map_nil]
        rw [mem_app1]
        rintro (hm | hm)
        · exact hs.pendingDialFresh d' hd' hm
        · exact hne hm
      · exact fun d' hd' =>
          hs.pendingDialNotPaired d' (List.mem_of_mem_erase hd')
      · exact fun d' hd' => hs.dialBound d' (List.mem_of_mem_erase hd')
      · intro i hi
        simp only [List.map_append, List.map_cons, List.map_nil] at hi
        rcases mem_app1.mp hi with hi | rfl
        · exact hs.dialResBound i hi
        · exact hs.dialBound _ hd
      · intro d' hd'
        rcases mem_app1.mp hd' with hd' | heq
        · exact hs.cancelNoLeak d' hd'
        · simp at heq
  | dialCancelled d =>
    simp only [lstep] at h
    split_ifs at h with hc
    · obtain ⟨hd, hctx⟩ := hc
      injection h with h
      subst h
      refine ⟨hs.flagZeroOne, hs.flagDone, hs.dialsNodup.erase d, hs.acceptsNodup,
        ?_, ?_, hs.pendingAcceptNotPaired, hs.pairsFstNodup, hs.pairsSndNodup,
        ?_, hs.acceptBound, ?_, hs.pairBound, ?_⟩
      · intro d' hd'
        obtain ⟨hne, hd'⟩ := (List.Nodup.mem_erase_iff hs.dialsNodup).mp hd'
        simp only [List.map_append, List.map_cons, List.map_nil]
        rw [mem_app1]
        rintro (hm | hm)
        · exact hs.pendingDialFresh d' hd' hm
        · exact hne hm
      · exact fun d' hd' =>
          hs.pendingDialNotPaired d' (List.mem_of_mem_erase hd')
      · exact fun d' hd' => hs.dialBound d' (List.mem_of_mem_erase hd')
      · intro i hi
        simp only [List.map_append, List.map_cons, List.map_nil] at hi
        rcases mem_app1.mp hi with hi | rfl
        · exact hs.dialResBound i hi
        · exact hs.dialBound _ hd
      · intro d' hd'
        rcases mem_app1.mp hd' with hd' | heq
        · exact hs.cancelNoLeak d' hd'
        · obtain ⟨rfl, -⟩ := Prod.ext_iff.mp heq
          exact hs.pendingDialNotPaired _ hd
  | acceptClosed a =>
    simp only [lstep] at h
    split_ifs at h with hc
    · obtain ⟨ha, hdone⟩ := hc
      injection h with h
      subst h
      exact ⟨hs.flagZeroOne, hs.flagDone, hs.dialsNodup, hs.acceptsNodup.erase a,
        hs.pendingDialFresh, hs.pendingDialNotPaired,
        fun a' ha' => hs.pendingAcceptNotPaired a' (List.mem_of_mem_erase ha'),
        hs.pairsFstNodup, hs.pairsSndNodup, hs.dialBound,
        fun a' ha' => hs.acceptBound a' (List.mem_of_mem_erase ha'),
        hs.dialResBound, hs.pairBound, hs.cancelNoLeak⟩
  | cancelCtx d =>
    simp only [lstep] at h
    injection h with h
    subst h
    exact ⟨hs.flagZeroOne, hs.flagDone, hs.dialsNodup, hs.acceptsNodup,
      hs.pendingDialFresh, hs.pendingDialNotPaired, hs.pendingAcceptNotPaired,
      hs.pairsFstNodup, hs.pairsSndNodup, hs.dialBound, hs.acceptBound,
      hs.dialResBound, hs.pairBound, hs.cancelNoLeak⟩
  | closeCall =>
    simp only [lstep, PL.Close, PL.closeDone] at h
    split_ifs at h with h1 h2
    · simp only [Option.map_some'] at h
      injection h with h
      subst h
      exact hs
    · simp at h
    · simp only [Option.map_some'] at h
      injection h with h
      subst h
      exact ⟨Or.inr rfl, by simp, hs.dialsNodup, hs.acceptsNodup,
        hs.pendingDialFresh, hs.pendingDialNotPaired, hs.pendingAcceptNotPaired,
        hs.pairsFstNodup, hs.pairsSndNodup, hs.dialBound, hs.acceptBound,
        hs.dialResBound, hs.pairBound, hs.cancelNoLeak⟩

theorem linv_run {s : PL} (hs : LInv s) (evs : List LEvent) : LInv (lrun s evs) := by
  induction evs generalizing s with
  | nil => exact hs
  | cons e evs ih =>
    rcases hq : lstep s e with _ | s'
    · simpa [lrun, hq] using ih hs
    · simpa [lrun, hq] using ih (linv_step hs hq)

theorem linv_reachable (evs : List LEvent) : LInv (lrun ListenPipe evs) :=
  linv_run linv_init evs

/-- Broker state is append-only where it matters: one step never unsets
the done signal and never removes a completed dial result. -/
theorem lstep_mono {s s' : PL} {e : LEvent} (h : lstep s e = some s') :
    (s.doneClosed = true → s'.doneClosed = true) ∧
    (∀ x ∈ s.dialResults, x ∈ s'.dialResults) := by
  cases e with
  | dialStart c =>
    simp only [lstep] at h
    injection h with h
    subst h
    exact ⟨fun hd => hd, fun x hx => hx⟩
  | acceptStart =>
    simp only [lstep] at h
    injection h with h
    subst h
    exact ⟨fun hd => hd, fun x hx => hx⟩
  | pair d a =>
    simp only [lstep] at h
    split_ifs at h with hc
    injection h with h
    subst h
    exact ⟨fun hd => hd, fun x hx => List.mem_append_left _ hx⟩
  | dialRefused d =>
    simp only [lstep] at h
    split_ifs at h with hc
    injection h with h
    subst h
    exact ⟨fun hd => hd, fun x hx => List.mem_append_left _ hx⟩
  | dialCancelled d =>
    simp only [lstep] at h
    split_ifs at h with hc
    injection h with h
    subst h
    exact ⟨fun hd => hd, fun x hx => List.mem_append_left _ hx⟩
  | acceptClosed a =>
    simp only [lstep] at h
    split_ifs at h with hc
    injection h with h
    subst h
    exact ⟨fun hd => hd, fun x hx => hx⟩
  | cancelCtx d =>
    simp only [lstep] at h
    injection h with h
    subst h
    exact ⟨fun hd => hd, fun x hx => hx⟩
  | closeCall =>
    simp only [lstep, PL.Close, PL.closeDone] at h
    split_ifs at h with h1 h2
    · simp only [Option.map_some'] at h
      injection h with h
      subst h
      exact ⟨fun hd => hd, fun x hx => hx⟩
    · simp at h
    · simp only [Option.map_some'] at h
      injection h with h
      subst h
      exact ⟨fun _ => rfl, fun x hx => hx⟩

theorem lrun_mono (s : PL) (evs : List LEvent) :
    (s.doneClosed = true → (lrun s evs).doneClosed = true) ∧
    (∀ x ∈ s.dialResults, x ∈ (lrun s evs).dialResults) := by
  induction evs generalizing s with
  | nil => exact ⟨fun hd => hd, fun x hx => hx⟩
  | cons e evs ih =>
    rcases hq : lstep s e with _ | s'
    · have heq : lrun s (e :: evs) = lrun s evs := by simp [lrun, hq]
      rw [heq]
      exact ih s
    · have heq : lrun s (e :: evs) = lrun s' evs := by simp [lrun, hq]
      rw [heq]
      exact ⟨fun hd => (ih s').1 ((lstep_mono hq).1 hd),
        fun x hx => (ih s').2 x ((lstep_mono hq).2 x hx)⟩

theorem writes_client_concat (p : Pipe) (wss : List (List Nat)) :
    (wss.foldl (fun q bs => q.write .client bs) p).clientToServer =
      p.clientToServer ++ wss.flatten := by
  induction wss generalizing p with
  | nil => simp
  | cons ws wss ih =>
    rw [List.foldl_cons, ih]
    simp [Pipe.write, List.append_assoc]

theorem writes_server_concat (p : Pipe) (wss : List (List Nat)) :
    (wss.foldl (fun q bs => q.write .server bs) p).serverToClient =
      p.serverToClient ++ wss.flatten := by
  induction wss generalizing p with
  | nil => simp
  | cons ws wss ih =>
    rw [List.foldl_cons, ih]
    simp [Pipe.write, List.append_assoc]

/-- C2: in every reachable broker state, the completed pairings use
each dial's offered endpoint at most once and each accept call at most
once — no endpoint is ever delivered to two accepts, and no accept ever
consumes two offered endpoints. -/
theorem pipeListener_endpoint_delivered_at_most_once (evs : List LEvent) :
    ((lrun ListenPipe evs).pairs.map Prod.fst).Nodup ∧
    ((lrun ListenPipe evs).pairs.map Prod.snd).Nodup :=
  ⟨(linv_reachable evs).pairsFstNodup, (linv_reachable evs).pairsSndNodup⟩

/-- C4 (counterexample): `Close` has succeeded (the done channel is
closed), yet a later `Accept` call may pair with a dial that was
blocked in its `select` from before the close — the Go runtime may
pick the ready `conns` case over the ready `done` case — and return a
connection rather than `EINVAL`. -/
theorem pipeListener_accept_after_close_can_return_conn :
    (lrun ListenPipe [.dialStart false, .closeCall]).doneClosed = true ∧
    (lrun ListenPipe [.dialStart false, .closeCall, .acceptStart, .pair 0 1]).acceptResults =
      [(1, .ok ⟨0, .server⟩)] ∧
    CallRes.ok ⟨0, .server⟩ ≠ CallRes.err .EINVAL := by
  exact ⟨by decide, by decide, by decide⟩

/-- C4 (amended): after `Close` has succeeded, no `Accept` or `Dial`
blocks: the `EINVAL` completion is enabled for every blocked accept and
the `ECONNREFUSED` completion for every blocked dial, and the closed
state is permanent.  The error result is only guaranteed in the absence
of a concurrently pending peer call: with no pending dial, an accept
can only complete with `EINVAL`; with no pending accept, a dial can
only complete with `ECONNREFUSED` or its own context-cancellation
error. -/
theorem pipeListener_closed_fails_fast
    (s t t' u u' : PL) (a d : Nat) (e1 e2 : LEvent) (evs : List LEvent)
    (hdone : s.doneClosed = true)
    (ha : a ∈ s.pendingAccepts)
    (hd : d ∈ s.pendingDials)
    (htpd : t.pendingDials = [])
    (hstep1 : lstep t e1 = some t')
    (hupa : u.pendingAccepts = [])
    (hstep2 : lstep u e2 = some u') :
    (∃ s', lstep s (.acceptClosed a) = some s' ∧
      s'.acceptResults = s.acceptResults ++ [(a, CallRes.err .EINVAL)]) ∧
    (∃ s', lstep s (.dialRefused d) = some s' ∧
      s'.dialResults = s.dialResults ++ [(d, CallRes.err .ECONNREFUSED)]) ∧
    (lrun s evs).doneClosed = true ∧
    (t'.acceptResults = t.acceptResults ∨
      ∃ a', t'.acceptResults = t.acceptResults ++ [(a', CallRes.err .EINVAL)]) ∧
    (u'.dialResults = u.dialResults ∨
      ∃ d', u'.dialResults = u.dialResults ++ [(d', CallRes.err .ECONNREFUSED)] ∨
        u'.dialResults = u.dialResults ++ [(d', CallRes.err .contextCanceled)]) := by
  refine ⟨⟨_, if_pos ⟨ha, hdone⟩, rfl⟩, ⟨_, if_pos ⟨hd, hdone⟩, rfl⟩,
    (lrun_mono s evs).1 hdone, ?_, ?_⟩
  · cases e1 with
    | dialStart c =>
      simp only [lstep] at hstep1
      injection hstep1 with hstep1
      subst hstep1
      exact Or.inl rfl
    | acceptStart =>
      simp only [lstep] at hstep1
      injection hstep1 with hstep1
      subst hstep1
      exact Or.inl rfl
    | pair d0 a0 => simp [lstep, htpd] at hstep1
    | dialRefused d0 =>
      simp only [lstep, htpd] at hstep1
      simp at hstep1
    | dialCancelled d0 =>
      simp only [lstep, htpd] at hstep1
      simp at hstep1
    | acceptClosed a0 =>
      simp only [lstep] at hstep1
      split_ifs at hstep1 with hc
      injection hstep1 with hstep1
      subst hstep1
      exact Or.inr ⟨a0, rfl⟩
    | cancelCtx d0 =>
      simp only [lstep] at hstep1
      injection hstep1 with hstep1
      subst hstep1
      exact Or.inl rfl
    | closeCall =>
      simp only [lstep, PL.Close, PL.closeDone] at hstep1
      split_ifs at hstep1 with h1 h2
      · simp only [Option.map_some'] at hstep1
        injection hstep1 with hstep1
        subst hstep1
        exact Or.inl rfl
      · simp at hstep1
      · simp only [Option.map_some'] at hstep1
        injection hstep1 with hstep1
        subst hstep1
        exact Or.inl rfl
  · cases e2 with
    | dialStart c =>
      simp only [lstep] at hstep2
      injection hstep2 with hstep2
      subst hstep2
      exact Or.inl rfl
    | acceptStart =>
      simp only [lstep] at hstep2
      injection hstep2 with hstep2
      subst hstep2
      exact Or.inl rfl
    | pair d0 a0 => simp [lstep, hupa] at hstep2
    | dialRefused d0 =>
      simp only [lstep] at hstep2
      split_ifs at hstep2 with hc
      injection hstep2 with hstep2
      subst hstep2
      exact Or.inr ⟨d0, Or.inl rfl⟩
    | dialCancelled d0 =>
      simp only [lstep] at hstep2
      split_ifs at hstep2 with hc
      injection hstep2 with hstep2
      subst hstep2
      exact Or.inr ⟨d0, Or.inr rfl⟩
    | acceptClosed a0 => simp [lstep, hupa] at hstep2
    | cancelCtx d0 =>
      simp only [lstep] at hstep2
      injection hstep2 with hstep2
      subst hstep2
      exact Or.inl rfl
    | closeCall =>
      simp only [lstep, PL.Close, PL.closeDone] at hstep2
      split_ifs at hstep2 with h1 h2
      · simp only [Option.map_some'] at hstep2
        injection hstep2 with hstep2
        subst hstep2
        exact Or.inl rfl
      · simp at hstep2
      · simp only [Option.map_some'] at hstep2
        injection hstep2 with hstep2
        subst hstep2
        exact Or.inl rfl

/-- Witness for `pipeListener_closed_fails_fast` on concrete closed
states with a blocked accept (`c4s`, `c4t`) and a blocked dial (`c4s`,
`c4u`). -/
theorem pipeListener_closed_fails_fast_witness :
    (c4s.doneClosed = true ∧ 0 ∈ c4s.pendingAccepts ∧ 1 ∈ c4s.pendingDials ∧
      c4t.pendingDials = [] ∧ lstep c4t (.acceptClosed 0) = some c4t' ∧
      c4u.pendingAccepts = [] ∧ lstep c4u (.dialRefused 0) = some c4u') ∧
    ((∃ s', lstep c4s (.acceptClosed 0) = some s' ∧
      s'.acceptResults = c4s.acceptResults ++ [(0, CallRes.err .EINVAL)]) ∧
    (∃ s', lstep c4s (.dialRefused 1) = some s' ∧
      s'.dialResults = c4s.dialResults ++ [(1, CallRes.err .ECONNREFUSED)]) ∧
    (lrun c4s [.acceptStart]).doneClosed = true ∧
    (c4t'.acceptResults = c4t.acceptResults ∨
      ∃ a', c4t'.acceptResults = c4t.acceptResults ++ [(a', CallRes.err .EINVAL)]) ∧
    (c4u'.dialResults = c4u.dialResults ∨
      ∃ d', c4u'.dialResults = c4u.dialResults ++ [(d', CallRes.err .ECONNREFUSED)] ∨
        c4u'.dialResults = c4u.dialResults ++ [(d', CallRes.err .contextCanceled)])) :=
  ⟨⟨by decide, by decide, by decide, by decide, by decide, by decide, by decide⟩,
   pipeListener_closed_fails_fast c4s c4t c4t' c4u c4u' 0 1 (.acceptClosed 0)
     (.dialRefused 0) [.acceptStart] (by decide) (by decide) (by decide) (by decide)
     (by decide) (by decide) (by decide)⟩

/-- C5 (counterexample): a `DialContext` call whose context is already
cancelled still creates its pipe endpoints first (`net.Pipe()` runs
unconditionally before the `select`), so when it returns the
cancellation error the connection was created and not handed off — the
claimed dichotomy "fully handed off or not created at all" fails; and
if an `Accept` is already pending, the `select` may pair instead of
returning the cancellation error at all. -/
theorem pipeListener_cancelled_dial_still_creates :
    (lrun ListenPipe [.dialStart true, .dialCancelled 0]).dialResults =
      [(0, .err .contextCanceled)] ∧
    (lrun ListenPipe [.dialStart true, .dialCancelled 0]).createdPipes = [0] ∧
    (lrun ListenPipe [.dialStart true, .dialCancelled 0]).pairs = [] ∧
    (lrun ListenPipe [.acceptStart, .dialStart true, .pair 1 0]).dialResults =
      [(1, .ok ⟨1, .client⟩)] ∧
    CallRes.ok ⟨1, .client⟩ ≠ CallRes.err .contextCanceled := by
  exact ⟨by decide, by decide, by decide, by decide, by decide⟩

theorem lrun_append (s : PL) (l1 l2 : List LEvent) :
    lrun s (l1 ++ l2) = lrun (lrun s l1) l2 := by
  simp [lrun, List.foldl_append]

/-- C5 (amended): a `DialContext` entered with an already-cancelled
context can complete immediately with `ctx.Err()` (`contextCanceled`),
with no matching `Accept` required; when no accept is pending and the
listener is open that is the only way any dial can complete; and a dial
that returned the cancellation error is never paired with any accept,
then or at any later time — its endpoints are created but never handed
off, so no half-completed pairing is left behind. -/
theorem pipeListener_cancelled_dial_no_half_pairing
    (s s1 s' : PL) (e : LEvent) (evs evs2 : List LEvent) (d : Nat)
    (hstart : lstep s (.dialStart true) = some s1)
    (hpa : s.pendingAccepts = [])
    (hopen : s.doneClosed = false)
    (hstep : lstep s e = some s')
    (hres : (d, CallRes.err .contextCanceled) ∈ (lrun ListenPipe evs).dialResults) :
    (∃ s2, lstep s1 (.dialCancelled s.nextId) = some s2 ∧
      s2.dialResults = s1.dialResults ++ [(s.nextId, CallRes.err .contextCanceled)]) ∧
    (s'.dialResults = s.dialResults ∨
      ∃ d', s'.dialResults = s.dialResults ++ [(d', CallRes.err .contextCanceled)]) ∧
    d ∉ ((lrun ListenPipe (evs ++ evs2)).pairs.map Prod.fst) := by
  refine ⟨?_, ?_, ?_⟩
  · simp only [lstep] at hstart
    injection hstart with hstart
    subst hstart
    exact ⟨_, if_pos ⟨by simp, by simp⟩, rfl⟩
  · cases e with
    | dialStart c =>
      simp only [lstep] at hstep
      injection hstep with hstep
      subst hstep
      exact Or.inl rfl
    | acceptStart =>
      simp only [lstep] at hstep
      injection hstep with hstep
      subst hstep
      exact Or.inl rfl
    | pair d0 a0 => simp [lstep, hpa] at hstep
    | dialRefused d0 => simp [lstep, hopen] at hstep
    | dialCancelled d0 =>
      simp only [lstep] at hstep
      split_ifs at hstep with hc
      injection hstep with hstep
      subst hstep
      exact Or.inr ⟨d0, rfl⟩
    | acceptClosed a0 => simp [lstep, hpa] at hstep
    | cancelCtx d0 =>
      simp only [lstep] at hstep
      injection hstep with hstep
      subst hstep
      exact Or.inl rfl
    | closeCall =>
      simp only [lstep, PL.Close, PL.closeDone] at hstep
      split_ifs at hstep with h1 h2
      · simp only [Option.map_some'] at hstep
        injection hstep with hstep
        subst hstep
        exact Or.inl rfl
      · simp at hstep
      · simp only [Option.map_some'] at hstep
        injection hstep with hstep
        subst hstep
        exact Or.inl rfl
  · have hfin : (d, CallRes.err .contextCanceled) ∈
        (lrun ListenPipe (evs ++ evs2)).dialResults := by
      rw [lrun_append]
      exact (lrun_mono _ evs2).2 _ hres
    exact (linv_reachable (evs ++ evs2)).cancelNoLeak d hfin

/-- Witness for `pipeListener_cancelled_dial_no_half_pairing` at the
fresh listener, with a cancelled dial whose id a later trace tries and
fails to pair. -/
theorem pipeListener_cancelled_dial_no_half_pairing_witness :
    (lstep ListenPipe (.dialStart true) = some c5s1 ∧
      ListenPipe.pendingAccepts = [] ∧ ListenPipe.doneClosed = false ∧
      lstep ListenPipe .acceptStart = some c5s' ∧
      (0, CallRes.err .contextCanceled) ∈
        (lrun ListenPipe [.dialStart true, .dialCancelled 0]).dialResults) ∧
    ((∃ s2, lstep c5s1 (.dialCancelled ListenPipe.nextId) = some s2 ∧
      s2.dialResults = c5s1.dialResults ++
        [(ListenPipe.nextId, CallRes.err .contextCanceled)]) ∧
    (c5s'.dialResults = ListenPipe.dialResults ∨
      ∃ d', c5s'.dialResults = ListenPipe.dialResults ++
        [(d', CallRes.err .contextCanceled)]) ∧
    0 ∉ ((lrun ListenPipe ([.dialStart true, .dialCancelled 0] ++
      [.acceptStart, .pair 0 1])).pairs.map Prod.fst)) :=
  ⟨⟨by decide, by decide, by decide, by decide, by decide⟩,
   pipeListener_cancelled_dial_no_half_pairing ListenPipe c5s1 c5s' .acceptStart
     [.dialStart true, .dialCancelled 0] [.acceptStart, .pair 0 1] 0
     (by decide) (by decide) (by decide) (by decide) (by decide)⟩

/-- C6: a first `Close` on an open listener succeeds (returns nil) and
closes the done channel; a second `Close` loses the CAS, returns the
`EINVAL` error (the already-closed report), does not panic, does not
close the done channel a second time (it never reaches `close(p.done)`,
which would be the `none` panic case), and leaves the state completely
unchanged.  In the earlier `sync.Once` revision the second `Close` is a
no-op returning nil, again without a double close. -/
theorem pipeListener_double_close (s : PL)
    (h0 : s.closed = 0) (hd : s.doneClosed = false) :
    (∃ s1, s.Close = some (none, s1) ∧ s1.Close = some (some .EINVAL, s1) ∧
      s1.doneClosed = true ∧ s1.closed = 1) ∧
    (∃ t1, PipeListenerOnce.CloseOnce ⟨false, false⟩ = some (none, t1) ∧
      t1.CloseOnce = some (none, t1) ∧ t1.doneClosed = true) := by
  constructor
  · refine ⟨{ s with doneClosed := true, closed := 1 }, ?_, ?_, rfl, rfl⟩
    · simp [PL.Close, PL.closeDone, h0, hd]
    · simp [PL.Close]
  · exact ⟨⟨true, true⟩, rfl, rfl, rfl⟩

/-- Witness for `pipeListener_double_close` at the fresh listener. -/
theorem pipeListener_double_close_witness :
    (ListenPipe.closed = 0 ∧ ListenPipe.doneClosed = false) ∧
    ((∃ s1, ListenPipe.Close = some (none, s1) ∧
      s1.Close = some (some .EINVAL, s1) ∧ s1.doneClosed = true ∧ s1.closed = 1) ∧
    (∃ t1, PipeListenerOnce.CloseOnce ⟨false, false⟩ = some (none, t1) ∧
      t1.CloseOnce = some (none, t1) ∧ t1.doneClosed = true)) :=
  ⟨⟨rfl, rfl⟩, pipeListener_double_close ListenPipe rfl rfl⟩

/-- C8: pairing one `Accept` with one `Dial` completes both with the
two ends of the same pipe — the accept side gets the server end of the
dial's pipe, the dial keeps the client end — and the pipe is a duplex
byte stream: any sequence of writes on the client end is read verbatim
(in order, concatenated) on the server end, and vice versa. -/
theorem pipeListener_pairing_duplex (wss wss2 : List (List Nat)) :
    (lrun ListenPipe [.acceptStart, .dialStart false, .pair 1 0]).acceptResults =
      [(0, CallRes.ok ⟨1, .server⟩)] ∧
    (lrun ListenPipe [.acceptStart, .dialStart false, .pair 1 0]).dialResults =
      [(1, CallRes.ok ⟨1, .client⟩)] ∧
    (Pipe.readAll (wss.foldl (fun q bs => q.write .client bs) Pipe.new) .server).1 =
      wss.flatten ∧
    (Pipe.readAll (wss2.foldl (fun q bs => q.write .server bs) Pipe.new) .client).1 =
      wss2.flatten := by
  refine ⟨by decide, by decide, ?_, ?_⟩
  · simp [Pipe.readAll, writes_client_concat, Pipe.new]
  · simp [Pipe.readAll, writes_server_concat, Pipe.new]
